import Mathlib

/-!
Shallow embedding of the FormMaster equipment-hiring workflow.

Django model fields of type `IntegerField` are embedded as `Int` (Python
integers are unbounded and the `MinValueValidator`s run only on form
cleaning, not on direct attribute mutation), `DecimalField`s as `ℚ`
(Python `Decimal` arithmetic on the amounts involved is exact), and
foreign keys to `Material` as indices into a list of materials (the
per-request snapshot of the material table).  Status `CharField`s become
inductive types listing the model's `STATUS_CHOICES`.  Each Django view
or model method used by the claims is embedded as a function from the
relevant state to either a new state or, for request paths that abort
with an error message and redirect, an `Except String` value whose
`error` case carries the message and performs no state change.
-/

/-- `apps.inventory.models.Material`: the stock-count fields used by the
workflow (`total_quantity`, `available_quantity`, `hired_quantity`,
`minimum_stock_level`). -/
structure Material where
  total_quantity : Int
  available_quantity : Int
  hired_quantity : Int
  minimum_stock_level : Int
deriving DecidableEq, Repr

/-- `Material.save` (apps/inventory/models.py): before persisting, if
`available_quantity > total_quantity` it is clamped down to
`total_quantity`. -/
def Material.save (m : Material) : Material :=
  if m.available_quantity > m.total_quantity then
    { m with available_quantity := m.total_quantity }
  else m

/-- `Material.is_low_stock` (apps/inventory/models.py):
`available_quantity <= minimum_stock_level`. -/
def Material.is_low_stock (m : Material) : Bool :=
  m.available_quantity ≤ m.minimum_stock_level

/-- Fetch-modify-store of one row of the material table: `item.material`
is loaded, mutated and `save`d.  An out-of-range index leaves the table
unchanged (it cannot occur for a valid foreign key). -/
def modifyMat (ms : List Material) (i : Nat) (f : Material → Material) :
    List Material :=
  match ms[i]? with
  | some m => ms.set i (f m)
  | none => ms

/-- `apps.hiring.models.HireOrderItem`: per-line dispatch/return
tracking.  `matIdx` is the `material` foreign key. -/
structure HireOrderItem where
  matIdx : Nat
  quantity_ordered : Int
  quantity_dispatched : Int
  quantity_returned : Int
deriving DecidableEq, Repr

/-- The `for item in order.items.all(): ... material.save()` loop shape
shared by the reservation and release code paths: each line item mutates
its own material row in sequence. -/
def applyItems (g : HireOrderItem → Material → Material)
    (ms : List Material) (items : List HireOrderItem) : List Material :=
  items.foldl (fun acc it => modifyMat acc it.matIdx (g it)) ms

/-- One reservation step (`order_create` / `create_order_from_quotation`
/ `convert_to_order`): `available_quantity -= quantity_ordered;
hired_quantity += quantity_ordered; material.save()`. -/
def reserveStep (it : HireOrderItem) (m : Material) : Material :=
  Material.save
    { m with
      available_quantity := m.available_quantity - it.quantity_ordered
      hired_quantity := m.hired_quantity + it.quantity_ordered }

/-- The inventory-reservation loop run at order creation. -/
def reserveItems (ms : List Material) (items : List HireOrderItem) :
    List Material :=
  applyItems reserveStep ms items

/-- One release step of the web `RETURNED` transition
(`order_update_status`): `hired_quantity -= quantity_dispatched;
available_quantity += quantity_returned; material.save()`. -/
def returnedStep (it : HireOrderItem) (m : Material) : Material :=
  Material.save
    { m with
      hired_quantity := m.hired_quantity - it.quantity_dispatched
      available_quantity := m.available_quantity + it.quantity_returned }

/-- One release step of the web `COMPLETED` transition
(`order_update_status`): if `quantity_dispatched > quantity_returned`
then `hired_quantity -= (quantity_dispatched - quantity_returned)` and
the material is saved, otherwise the row is untouched. -/
def completedStep (it : HireOrderItem) (m : Material) : Material :=
  if it.quantity_dispatched > it.quantity_returned then
    Material.save
      { m with
        hired_quantity :=
          m.hired_quantity - (it.quantity_dispatched - it.quantity_returned) }
  else m

/-- One step of the API `return_order` action
(`HireOrderViewSet.return_order`): `available_quantity +=
quantity_dispatched; hired_quantity -= quantity_dispatched;
material.save()`.  `quantity_returned` is not consulted. -/
def apiReturnStep (it : HireOrderItem) (m : Material) : Material :=
  Material.save
    { m with
      available_quantity := m.available_quantity + it.quantity_dispatched
      hired_quantity := m.hired_quantity - it.quantity_dispatched }

/-- `HireOrder.STATUS_CHOICES` (apps/hiring/models.py). -/
inductive OrderStatus
  | ORDERED | APPROVED | DISPATCHED | ACTIVE | RETURNED | COMPLETED | CANCELLED
deriving DecidableEq, Repr

/-- `apps.hiring.models.HireOrder`: the fields touched by the status
workflow.  Dates are day numbers; `actual_return_date` is nullable. -/
structure HireOrder where
  status : OrderStatus
  items : List HireOrderItem
  actual_return_date : Option Int
deriving DecidableEq, Repr

/-- The `valid_transitions` table of `order_update_status`
(apps/hiring/views.py); `dict.get(current_status, [])` yields `[]` for
the statuses absent from the table. -/
def validTransitions : OrderStatus → List OrderStatus
  | .ORDERED => [.APPROVED, .CANCELLED]
  | .APPROVED => [.DISPATCHED, .CANCELLED]
  | .DISPATCHED => [.ACTIVE]
  | .ACTIVE => [.RETURNED]
  | .RETURNED => [.COMPLETED]
  | _ => []

/-- `order_update_status` (apps/hiring/views.py): validates the
requested transition against `valid_transitions` (aborting with an error
message and no state change otherwise), sets the new status, and on
`RETURNED` stamps `actual_return_date` and releases inventory per item,
on `COMPLETED` releases any still-dispatched remainder. -/
def orderUpdateStatus (today : Int) (o : HireOrder) (ms : List Material)
    (newStatus : OrderStatus) : Except String (HireOrder × List Material) :=
  if newStatus ∈ validTransitions o.status then
    if newStatus = .RETURNED then
      .ok ({ o with status := newStatus, actual_return_date := some today },
           applyItems returnedStep ms o.items)
    else if newStatus = .COMPLETED then
      .ok ({ o with status := newStatus }, applyItems completedStep ms o.items)
    else
      .ok ({ o with status := newStatus }, ms)
  else
    .error ("Cannot change status from the current status to the requested one.")

/-- `HireOrderViewSet.dispatch` (apps/api/views.py): rejects only when
the status is outside `['ORDERED', 'APPROVED']`; otherwise sets the
status to `DISPATCHED` and copies `quantity_ordered` into
`quantity_dispatched` on every item. -/
def apiDispatch (o : HireOrder) : Except String HireOrder :=
  if o.status ∉ [OrderStatus.ORDERED, OrderStatus.APPROVED] then
    .error ("Order cannot be dispatched from current status")
  else
    .ok { o with
          status := .DISPATCHED
          items := o.items.map
            (fun it => { it with quantity_dispatched := it.quantity_ordered }) }

/-- `HireOrderViewSet.return_order` (apps/api/views.py): only `ACTIVE`
orders may be returned; on success the status becomes `RETURNED`,
`actual_return_date` is stamped, and each item runs `apiReturnStep` on
its material. -/
def apiReturnOrder (today : Int) (o : HireOrder) (ms : List Material) :
    Except String (HireOrder × List Material) :=
  if o.status ≠ .ACTIVE then
    .error ("Only active orders can be returned")
  else
    .ok ({ o with status := .RETURNED, actual_return_date := some today },
         applyItems apiReturnStep ms o.items)

/-- The `adjustment_type` choices of `MaterialAdjustmentForm`. -/
inductive AdjustmentType
  | ADD | REMOVE
deriving DecidableEq, Repr

/-- `material_adjust_stock` (apps/inventory/views.py): `ADD` increments
both `total_quantity` and `available_quantity`; `REMOVE` aborts with an
error when `available_quantity < quantity`, otherwise decrements both.
The material is saved afterwards. -/
def materialAdjustStock (m : Material) (ty : AdjustmentType) (q : Int) :
    Except String Material :=
  match ty with
  | .ADD =>
    .ok (Material.save
      { m with
        total_quantity := m.total_quantity + q
        available_quantity := m.available_quantity + q })
  | .REMOVE =>
    if m.available_quantity < q then
      .error ("Cannot remove the requested units; fewer are available.")
    else
      .ok (Material.save
        { m with
          total_quantity := m.total_quantity - q
          available_quantity := m.available_quantity - q })

/-- `available_quantity + hired_quantity`, the quantity the Material
Ledger invariant compares with `total_quantity`. -/
def availHired (m : Material) : Int :=
  m.available_quantity + m.hired_quantity

/-- `Quotation.STATUS_CHOICES` (apps/hiring/models.py) together with the
`CONVERTED` value that `QuotationViewSet.convert_to_order` assigns even
though it is absent from the declared choices (Django does not enforce
choices on save). -/
inductive QuotationStatus
  | DRAFT | SENT | ACCEPTED | REJECTED | EXPIRED | CONVERTED
deriving DecidableEq, Repr

/-- The literal `STATUS_CHOICES` list declared on `Quotation`
(apps/hiring/models.py, lines 76-82). -/
def quotationStatusChoices : List QuotationStatus :=
  [.DRAFT, .SENT, .ACCEPTED, .REJECTED, .EXPIRED]

/-- `settings.TAX_RATE` (15% VAT), the value both
`Quotation.calculate_totals` and `Invoice.calculate_totals` use. -/
def TAX_RATE : ℚ := 15 / 100

/-- `apps.hiring.models.QuotationItem`: a priced line item.  `matIdx` is
the `material` foreign key. -/
structure QuotationItem where
  matIdx : Nat
  quantity : Int
  daily_rate : ℚ
  duration_days : Int
  line_total : ℚ
deriving DecidableEq, Repr

/-- `QuotationItem.save` (apps/hiring/models.py): recomputes
`line_total = daily_rate * quantity * duration_days` before
persisting. -/
def QuotationItem.save (it : QuotationItem) : QuotationItem :=
  { it with
    line_total := it.daily_rate * (it.quantity : ℚ) * (it.duration_days : ℚ) }

/-- `apps.hiring.models.Quotation`: the pricing and status fields. -/
structure Quotation where
  status : QuotationStatus
  transport_cost : ℚ
  subtotal : ℚ
  tax_amount : ℚ
  total_amount : ℚ
  items : List QuotationItem
deriving DecidableEq, Repr

/-- `Quotation.calculate_totals` (apps/hiring/models.py):
`subtotal = sum(item.line_total) + transport_cost`,
`tax_amount = subtotal * TAX_RATE`,
`total_amount = subtotal + tax_amount`. -/
def calculateTotals (q : Quotation) : Quotation :=
  let subtotal := (q.items.map (fun it => it.line_total)).sum + q.transport_cost
  let tax_amount := subtotal * TAX_RATE
  { q with
    subtotal := subtotal
    tax_amount := tax_amount
    total_amount := subtotal + tax_amount }

/-- The per-item availability pre-check both conversion paths run:
abort as soon as some item has `material.available_quantity <
item.quantity`.  `false` also when the foreign key is dangling. -/
def stockSufficient (ms : List Material) (items : List QuotationItem) : Bool :=
  items.all (fun it =>
    match ms[it.matIdx]? with
    | some m => decide (it.quantity ≤ m.available_quantity)
    | none => false)

/-- Order items created from quotation items
(`HireOrderItem.objects.create(... quantity_ordered=item.quantity)`):
dispatch and return counters start at their defaults `0`. -/
def orderItemsOfQuotation (q : Quotation) : List HireOrderItem :=
  q.items.map (fun it => ⟨it.matIdx, it.quantity, 0, 0⟩)

/-- `create_order_from_quotation` (apps/hiring/views.py, web path):
aborts if a `HireOrder` for this quotation already exists, if the
quotation is not `ACCEPTED`, or if some item lacks stock; otherwise it
creates the order with items copied from the quotation and reserves
inventory.  The quotation's own status is never modified on this
path. -/
def createOrderFromQuotation (orderExists : Bool) (q : Quotation)
    (ms : List Material) :
    Except String (Quotation × HireOrder × List Material) :=
  if orderExists then
    .error ("An order already exists for this quotation.")
  else if q.status ≠ .ACCEPTED then
    .error ("Please mark the quotation as accepted before creating an order.")
  else if ¬ stockSufficient ms q.items then
    .error ("Insufficient stock for a requested material.")
  else
    let items := orderItemsOfQuotation q
    .ok (q, ⟨.ORDERED, items, none⟩, reserveItems ms items)

/-- `QuotationViewSet.convert_to_order` (apps/api/views.py): aborts
unless the quotation is `ACCEPTED` and every item has stock; otherwise
creates the order, reserves inventory, and sets the quotation's status
to `CONVERTED`. -/
def convertToOrder (q : Quotation) (ms : List Material) :
    Except String (Quotation × HireOrder × List Material) :=
  if q.status ≠ .ACCEPTED then
    .error ("Only accepted quotations can be converted to orders")
  else if ¬ stockSufficient ms q.items then
    .error ("Insufficient stock for a requested material.")
  else
    let items := orderItemsOfQuotation q
    .ok ({ q with status := .CONVERTED }, ⟨.ORDERED, items, none⟩,
         reserveItems ms items)

/-- `order_create` (apps/hiring/views.py, direct order creation without
a quotation): saves each formset item and immediately reserves its
quantity.  No availability check is performed on this path, so it never
fails with an insufficient-stock error. -/
def orderCreate (ms : List Material) (items : List HireOrderItem) :
    HireOrder × List Material :=
  (⟨.ORDERED, items, none⟩, reserveItems ms items)

/-- `apps.clients.models.Client`: the balance field the Billing Workflow
mutates. -/
structure Client where
  current_balance : ℚ
deriving DecidableEq, Repr

/-- `Client.update_balance` (apps/clients/models.py):
`current_balance += amount` followed by save. -/
def Client.update_balance (c : Client) (amount : ℚ) : Client :=
  { c with current_balance := c.current_balance + amount }

/-- `CreditNote.STATUS_CHOICES` (apps/clients/models.py). -/
inductive CreditNoteStatus
  | DRAFT | ISSUED | APPLIED | CANCELLED
deriving DecidableEq, Repr

/-- `apps.clients.models.CreditNote`: status, amount, and the
application stamps. -/
structure CreditNote where
  status : CreditNoteStatus
  amount : ℚ
  applied_to_invoice : Option Nat
  applied_date : Option Int
  applied_by : Option Nat
deriving DecidableEq, Repr

/-- `CreditNote.apply_to_invoice` (apps/clients/models.py): sets the
status to `APPLIED`, stamps `applied_to_invoice`, `applied_date` and
`applied_by`, saves, and calls `client.update_balance(-amount)`.  The
method performs no check of the note's current status. -/
def CreditNote.apply_to_invoice (cn : CreditNote) (c : Client)
    (invoiceId : Nat) (today : Int) (userId : Nat) : CreditNote × Client :=
  ({ cn with
     status := .APPLIED
     applied_to_invoice := some invoiceId
     applied_date := some today
     applied_by := some userId },
   c.update_balance (-cn.amount))

/-- `Invoice.STATUS_CHOICES` (apps/finance/models.py); `PART_PAID`
stands for the source's `'PARTIAL'` (partially paid). -/
inductive InvoiceStatus
  | DRAFT | ISSUED | SENT | PART_PAID | PAID | OVERDUE | CANCELLED
deriving DecidableEq, Repr

/-- `apps.finance.models.Invoice`: the amount and status fields of the
payment ledger. -/
structure Invoice where
  total_amount : ℚ
  amount_paid : ℚ
  balance_due : ℚ
  payment_status : InvoiceStatus
  due_date : Int
deriving DecidableEq, Repr

/-- The derived-field part of `Invoice.save` (apps/finance/models.py):
`balance_due = total_amount - amount_paid`, then the payment status is
set to `PAID` when `amount_paid >= total_amount`, else `PARTIAL` when
`amount_paid > 0`, else `OVERDUE` when the due date has passed and the
status was `SENT`; otherwise it is left unchanged.  (The invoice-number
generation in the same method is modelled separately with the document
numbering scheme.) -/
def Invoice.save (today : Int) (inv : Invoice) : Invoice :=
  let inv := { inv with balance_due := inv.total_amount - inv.amount_paid }
  if inv.amount_paid ≥ inv.total_amount then
    { inv with payment_status := .PAID }
  else if inv.amount_paid > 0 then
    { inv with payment_status := .PART_PAID }
  else if inv.due_date < today ∧ inv.payment_status = .SENT then
    { inv with payment_status := .OVERDUE }
  else inv

/-- `apps.finance.models.Payment`: amount and confirmation flag. -/
structure Payment where
  amount : ℚ
  confirmed : Bool
deriving DecidableEq, Repr

/-- The invoice update at the end of `Payment.confirm_payment`
(apps/finance/models.py): `invoice.amount_paid = total_paid`, then
`PAID` when `total_paid >= invoice.total_amount`, else `PARTIAL` when
`total_paid > 0`, then `invoice.save()`. -/
def confirmInvoiceUpdate (today : Int) (total_paid : ℚ) (inv : Invoice) :
    Invoice :=
  let inv := { inv with amount_paid := total_paid }
  let inv :=
    if total_paid ≥ inv.total_amount then
      { inv with payment_status := .PAID }
    else if total_paid > 0 then
      { inv with payment_status := .PART_PAID }
    else inv
  Invoice.save today inv

/-- `Payment.confirm_payment` (apps/finance/models.py): marks the
payment (at index `i` of the invoice's payment list) confirmed and
saves it, then recomputes the invoice's `amount_paid` as the sum of the
amounts of all *confirmed* payments, rederives `PAID`/`PARTIAL`, and
saves the invoice. -/
def confirmPayment (today : Int) (ps : List Payment) (i : Nat)
    (inv : Invoice) : List Payment × Invoice :=
  let ps :=
    match ps[i]? with
    | some p => ps.set i { p with confirmed := true }
    | none => ps
  let total_paid : ℚ := ((ps.filter (fun p => p.confirmed)).map
    (fun p => p.amount)).sum
  (ps, confirmInvoiceUpdate today total_paid inv)

/-- A delivery-note line item (`apps.delivery.models.DeliveryNoteItem`):
material foreign key and quantity. -/
structure DeliveryNoteItem where
  matIdx : Nat
  quantity : Int
deriving DecidableEq, Repr

/-- `apps.delivery.models.DeliveryNote`, reduced to its line items. -/
structure DeliveryNote where
  items : List DeliveryNoteItem
deriving DecidableEq, Repr

/-- `create_delivery_note_on_delivery_creation`
(apps/delivery/signals.py): on `post_save` of a freshly created
`Delivery` with a hire order set, creates one `DeliveryNote` with no
items, unless one already exists for that delivery. -/
def signalCreateNote (notesOfDelivery : List DeliveryNote) :
    List DeliveryNote :=
  if notesOfDelivery.isEmpty then notesOfDelivery ++ [⟨[]⟩]
  else notesOfDelivery

/-- `DeliveryCreateView.form_valid` (apps/delivery/views.py): saving the
new `Delivery` fires the `post_save` signal, after which the view
unconditionally creates a further `DeliveryNote` and populates it with
one item per hire-order item, `quantity = quantity_ordered`.  Returns
the delivery notes attached to the new delivery. -/
def deliveryCreateView (orderItems : List HireOrderItem) :
    List DeliveryNote :=
  let notes := signalCreateNote []
  notes ++ [⟨orderItems.map (fun it => ⟨it.matIdx, it.quantity_ordered⟩)⟩]

/-!
Document numbering.  Every `save` method generating a business-document
number runs the same scheme (e.g. `Quotation.save`, `Invoice.save`):

    last = Model.objects.filter(number__startswith=f'PREFIX-{year}')
               .order_by('number').last()
    new  = int(last.number.split('-')[-1]) + 1  if last else 1
    self.number = f'PREFIX-{year}-{new:04d}'

All numbers surviving the `startswith` filter share the literal prefix
`PREFIX-YYYY-`, so the lexicographic (string) ordering used by
`order_by` coincides with the lexicographic ordering of the zero-padded
sequence suffixes.  A suffix, being a string of decimal digits, is
embedded as a `List Nat` of digit values; `% 04d` formatting and `int`
parsing are embedded below.
-/

/-- `int(...)` applied to a digit string: fold the digits in base 10.
Leading zeros are immaterial. -/
def ofDigits (ds : List Nat) : Nat :=
  ds.foldl (fun a d => a * 10 + d) 0

/-- Big-endian decimal digits of `n` (empty for `0`):
`Nat.digits 10 n` is little-endian, so it is reversed. -/
def decDigits (n : Nat) : List Nat :=
  (Nat.digits 10 n).reverse

/-- Python `f'{n:04d}'`: the decimal digits of `n`, left-padded with
zeros to width (at least) four. -/
def pad4 (n : Nat) : List Nat :=
  List.replicate (4 - (decDigits n).length) 0 ++ decDigits n

/-- Lexicographic strict order on digit strings, as the database
compares the stored `CharField` values. -/
def lexLtB : List Nat → List Nat → Bool
  | [], [] => false
  | [], _ :: _ => true
  | _ :: _, [] => false
  | a :: as, b :: bs =>
    if a < b then true
    else if b < a then false
    else lexLtB as bs

/-- `order_by('number').last()` restricted to one prefix-year: the
lexicographic maximum of the stored suffixes, `none` when no document
of that year exists. -/
def lexLast (l : List (List Nat)) : Option (List Nat) :=
  l.foldl
    (fun acc s =>
      match acc with
      | none => some s
      | some t => if lexLtB t s then some s else some t)
    none

/-- The generated sequence number for the next document of a given
document type and year, from the sequence numbers of the existing
documents of that type and year (stored as their padded suffixes). -/
def nextSeq (existing : List Nat) : Nat :=
  match lexLast (existing.map pad4) with
  | none => 1
  | some s => ofDigits s + 1

/-- The suffix digits of the generated document number
`PREFIX-YYYY-<newSeqDigits existing>`. -/
def newSeqDigits (existing : List Nat) : List Nat :=
  pad4 (nextSeq existing)

/-- The Material Ledger invariant claimed by the specification:
`available_quantity + hired_quantity == total_quantity`, both
non-negative, and `0 <= available_quantity <= total_quantity`. -/
def MaterialInv (m : Material) : Prop :=
  m.available_quantity + m.hired_quantity = m.total_quantity ∧
  0 ≤ m.available_quantity ∧ 0 ≤ m.hired_quantity ∧
  m.available_quantity ≤ m.total_quantity

instance (m : Material) : Decidable (MaterialInv m) := by
  unfold MaterialInv
  infer_instance

/-- Whether a request path aborted with an error message (and hence
performed no state change, the view redirecting without saving). -/
def isErr {α : Type} : Except String α → Bool
  | .error _ => true
  | .ok _ => false

/-! Generic lemmas about single-row updates and the per-item loops. -/

lemma length_modifyMat (ms : List Material) (i : Nat) (f : Material → Material) :
    (modifyMat ms i f).length = ms.length := by
  unfold modifyMat
  cases h : ms[i]? <;> simp

lemma getElem?_modifyMat_self (ms : List Material) (i : Nat)
    (f : Material → Material) :
    (modifyMat ms i f)[i]? = (ms[i]?).map f := by
  unfold modifyMat
  cases h : ms[i]? with
  | none => simp [List.getElem?_eq_none_iff.mp h]
  | some m =>
    have hi : i < ms.length := (List.getElem?_eq_some_iff.mp h).1
    simp [List.getElem?_set_self hi, h]

lemma getElem?_modifyMat_ne (ms : List Material) (i j : Nat)
    (f : Material → Material) (hne : i ≠ j) :
    (modifyMat ms i f)[j]? = ms[j]? := by
  unfold modifyMat
  cases h : ms[i]? with
  | none => rfl
  | some m => exact List.getElem?_set_ne hne

lemma applyItems_nil (g : HireOrderItem → Material → Material)
    (ms : List Material) : applyItems g ms [] = ms := rfl

lemma applyItems_cons (g : HireOrderItem → Material → Material)
    (ms : List Material) (it : HireOrderItem) (rest : List HireOrderItem) :
    applyItems g ms (it :: rest) =
      applyItems g (modifyMat ms it.matIdx (g it)) rest := rfl

lemma length_applyItems (g : HireOrderItem → Material → Material)
    (items : List HireOrderItem) :
    ∀ ms : List Material, (applyItems g ms items).length = ms.length := by
  induction items with
  | nil => intro ms; rfl
  | cons it rest ih =>
    intro ms
    rw [applyItems_cons, ih, length_modifyMat]

/-- A row whose index is referenced by no line item is untouched by the
per-item loop. -/
lemma getElem?_applyItems_not_mem (g : HireOrderItem → Material → Material)
    (items : List HireOrderItem) :
    ∀ (ms : List Material) (j : Nat),
      j ∉ items.map (fun it => it.matIdx) →
      (applyItems g ms items)[j]? = ms[j]? := by
  induction items with
  | nil => intro ms j _; rfl
  | cons it rest ih =>
    intro ms j hj
    simp only [List.map_cons, List.mem_cons, not_or] at hj
    rw [applyItems_cons, ih _ j hj.2, getElem?_modifyMat_ne _ _ _ _
      (fun h => hj.1 h.symm)]

/-- When the items reference pairwise distinct materials, the loop
applies each item's step exactly once to that item's row. -/
lemma getElem?_applyItems_nodup (g : HireOrderItem → Material → Material)
    (items : List HireOrderItem) :
    ∀ (ms : List Material) (it : HireOrderItem),
      (items.map (fun it => it.matIdx)).Nodup → it ∈ items →
      (applyItems g ms items)[it.matIdx]? = (ms[it.matIdx]?).map (g it) := by
  induction items with
  | nil => intro ms it _ hmem; cases hmem
  | cons it0 rest ih =>
    intro ms it hnd hmem
    have hnd' := hnd
    simp only [List.map_cons, List.nodup_cons] at hnd'
    rcases List.mem_cons.mp hmem with heq | hmem'
    · subst heq
      rw [applyItems_cons, getElem?_applyItems_not_mem g rest _ _ hnd'.1,
        getElem?_modifyMat_self]
    · have hne : it0.matIdx ≠ it.matIdx := by
        intro h
        exact hnd'.1 (h ▸ List.mem_map_of_mem (fun x => x.matIdx) hmem')
      rw [applyItems_cons, ih _ it hnd'.2 hmem',
        getElem?_modifyMat_ne _ _ _ _ hne]

/-! Computation of the individual mutation steps. -/

lemma availHired_reserveStep (it : HireOrderItem) (m : Material)
    (hq : 0 ≤ it.quantity_ordered)
    (hw : m.available_quantity ≤ m.total_quantity) :
    availHired (reserveStep it m) = availHired m := by
  simp only [reserveStep, Material.save, availHired]
  split <;> simp_all
  all_goals omega

lemma total_reserveStep (it : HireOrderItem) (m : Material) :
    (reserveStep it m).total_quantity = m.total_quantity := by
  simp only [reserveStep, Material.save]
  split <;> rfl

lemma reserveStep_eq (it : HireOrderItem) (m : Material)
    (hq : 0 ≤ it.quantity_ordered)
    (hw : m.available_quantity ≤ m.total_quantity) :
    reserveStep it m =
      { m with
        available_quantity := m.available_quantity - it.quantity_ordered
        hired_quantity := m.hired_quantity + it.quantity_ordered } := by
  simp only [reserveStep, Material.save]
  rw [if_neg]
  simp only [gt_iff_lt, not_lt]
  omega

lemma returnedStep_eq (it : HireOrderItem) (m : Material)
    (hnc : m.available_quantity + it.quantity_returned ≤ m.total_quantity) :
    returnedStep it m =
      { m with
        hired_quantity := m.hired_quantity - it.quantity_dispatched
        available_quantity := m.available_quantity + it.quantity_returned } := by
  simp only [returnedStep, Material.save]
  rw [if_neg]
  simp only [gt_iff_lt, not_lt]
  omega

lemma apiReturnStep_eq (it : HireOrderItem) (m : Material)
    (hnc : m.available_quantity + it.quantity_dispatched ≤ m.total_quantity) :
    apiReturnStep it m =
      { m with
        available_quantity := m.available_quantity + it.quantity_dispatched
        hired_quantity := m.hired_quantity - it.quantity_dispatched } := by
  simp only [apiReturnStep, Material.save]
  rw [if_neg]
  simp only [gt_iff_lt, not_lt]
  omega

/-- If every step applied by the loop preserves an observation `f` of
the rows of the initial table, and the items touch pairwise distinct
rows, then `f` of every row (touched or not) is preserved. -/
lemma getElem?_applyItems_map {α : Type} (g : HireOrderItem → Material → Material)
    (f : Material → α) (items : List HireOrderItem) (ms : List Material)
    (hnd : (items.map (fun it => it.matIdx)).Nodup)
    (hcomm : ∀ it ∈ items, ∀ m ∈ ms, f (g it m) = f m) :
    ∀ j : Nat, ((applyItems g ms items)[j]?).map f = (ms[j]?).map f := by
  intro j
  by_cases hj : j ∈ items.map (fun it => it.matIdx)
  · rcases List.mem_map.mp hj with ⟨it, hit, hidx⟩
    subst hidx
    rw [getElem?_applyItems_nodup g items ms it hnd hit]
    cases hm : ms[it.matIdx]? with
    | none => rfl
    | some m =>
      have hmem : m ∈ ms := List.getElem?_mem hm
      simp [hcomm it hit m hmem]
  · rw [getElem?_applyItems_not_mem g items ms j hj]

/-!
Claim theorems.
-/

/-- C4: `Quotation.calculate_totals` sets `subtotal` to the sum of the
items' `line_total` plus `transport_cost`, `tax_amount = subtotal *
tax_rate`, and `total_amount = subtotal + tax_amount`, where every
saved item's `line_total` is `daily_rate * quantity * duration_days`;
for a single item with quantity 100, daily rate 5 and duration 30 days
(line total 15000), transport cost 500 and tax rate 0.15, it yields
subtotal 15500, tax amount 2325 and total amount 17825. -/
theorem C4_calculate_totals_correct :
    (∀ q : Quotation,
      (calculateTotals q).subtotal =
          (q.items.map (fun it => it.line_total)).sum + q.transport_cost ∧
      (calculateTotals q).tax_amount =
          (calculateTotals q).subtotal * TAX_RATE ∧
      (calculateTotals q).total_amount =
          (calculateTotals q).subtotal + (calculateTotals q).tax_amount) ∧
    (∀ it : QuotationItem,
      (QuotationItem.save it).line_total =
        it.daily_rate * (it.quantity : ℚ) * (it.duration_days : ℚ)) ∧
    TAX_RATE = 0.15 ∧
    (QuotationItem.save ⟨0, 100, 5, 30, 0⟩).line_total = 15000 ∧
    (calculateTotals ⟨.ACCEPTED, 500, 0, 0, 0,
        [QuotationItem.save ⟨0, 100, 5, 30, 0⟩]⟩).subtotal = 15500 ∧
    (calculateTotals ⟨.ACCEPTED, 500, 0, 0, 0,
        [QuotationItem.save ⟨0, 100, 5, 30, 0⟩]⟩).tax_amount = 2325 ∧
    (calculateTotals ⟨.ACCEPTED, 500, 0, 0, 0,
        [QuotationItem.save ⟨0, 100, 5, 30, 0⟩]⟩).total_amount = 17825 := by
  refine ⟨fun q => ⟨rfl, rfl, rfl⟩, fun it => rfl, ?_, ?_, ?_, ?_, ?_⟩ <;>
    norm_num [calculateTotals, QuotationItem.save, TAX_RATE]

/-- C5 counterexample: `CreditNote.apply_to_invoice` performs no check
of the note's status, so re-applying an already-`APPLIED` 200-dollar
note to a client whose balance is 800 succeeds and drops the balance to
600, where the claim says the call fails and the balance remains
800. -/
theorem C5_counterexample :
    (CreditNote.apply_to_invoice ⟨.APPLIED, 200, some 1, some 0, some 0⟩
        ⟨800⟩ 1 0 0).2.current_balance = 600 ∧
    (CreditNote.apply_to_invoice ⟨.APPLIED, 200, some 1, some 0, some 0⟩
        ⟨800⟩ 1 0 0).1.status = .APPLIED := by
  constructor
  · norm_num [CreditNote.apply_to_invoice, Client.update_balance]
  · rfl

/-- C5 amended: `CreditNote.apply_to_invoice` unconditionally sets the
status to `APPLIED`, stamps `applied_to_invoice`, `applied_date` and
`applied_by`, and decreases the client's balance by the note's amount,
whatever the note's current status; applying a 200-dollar note to a
client with balance 1000 gives 800, and re-applying the same
already-`APPLIED` note succeeds again and gives 600. -/
theorem C5_apply_to_invoice_unguarded :
    (∀ (cn : CreditNote) (c : Client) (invId : Nat) (today : Int) (uid : Nat),
      (cn.apply_to_invoice c invId today uid).1.status = .APPLIED ∧
      (cn.apply_to_invoice c invId today uid).1.applied_to_invoice = some invId ∧
      (cn.apply_to_invoice c invId today uid).1.applied_date = some today ∧
      (cn.apply_to_invoice c invId today uid).1.applied_by = some uid ∧
      (cn.apply_to_invoice c invId today uid).2.current_balance =
        c.current_balance - cn.amount) ∧
    (CreditNote.apply_to_invoice ⟨.ISSUED, 200, none, none, none⟩
        ⟨1000⟩ 1 0 0).2.current_balance = 800 ∧
    (CreditNote.apply_to_invoice
        (CreditNote.apply_to_invoice ⟨.ISSUED, 200, none, none, none⟩
          ⟨1000⟩ 1 0 0).1
        (CreditNote.apply_to_invoice ⟨.ISSUED, 200, none, none, none⟩
          ⟨1000⟩ 1 0 0).2 1 0 0).2.current_balance = 600 := by
  refine ⟨fun cn c invId today uid => ⟨rfl, rfl, rfl, rfl, ?_⟩, ?_, ?_⟩ <;>
    norm_num [CreditNote.apply_to_invoice, Client.update_balance]
  all_goals ring

/-- C9 counterexample: creating a delivery through the delivery-creation
view produces two delivery notes, the first (created by the `post_save`
signal) having no line items — the claim says exactly one note is
created, pre-populated with the order's items. -/
theorem C9_counterexample :
    (deliveryCreateView [⟨0, 5, 0, 0⟩]).length = 2 ∧
    (deliveryCreateView [⟨0, 5, 0, 0⟩])[0]? = some ⟨[]⟩ ∧
    (deliveryCreateView [⟨0, 5, 0, 0⟩])[1]? = some ⟨[⟨0, 5⟩]⟩ := by
  refine ⟨rfl, rfl, rfl⟩

/-- C9 amended: persisting a new `Delivery` fires a `post_save` signal
that creates one `DeliveryNote` with no line items (when none exists
yet); the delivery-creation view then unconditionally creates a second
`DeliveryNote` and populates it with one item per hire-order item with
`quantity = quantity_ordered` — so view-created deliveries end up with
two notes, the signal-created one empty and the view-created one
pre-populated. -/
theorem C9_two_notes :
    ∀ orderItems : List HireOrderItem,
      deliveryCreateView orderItems =
        [⟨[]⟩,
         ⟨orderItems.map (fun it => ⟨it.matIdx, it.quantity_ordered⟩)⟩] ∧
      signalCreateNote [] = [⟨[]⟩] ∧
      ∀ (note0 : DeliveryNote) (notes : List DeliveryNote),
        signalCreateNote (note0 :: notes) = note0 :: notes := by
  intro orderItems
  refine ⟨rfl, rfl, fun note0 notes => ?_⟩
  unfold signalCreateNote
  rw [if_neg (by simp)]

lemma confirmInvoiceUpdate_of_ge (today : Int) (T : ℚ) (inv : Invoice)
    (h : T ≥ inv.total_amount) :
    confirmInvoiceUpdate today T inv =
      ⟨inv.total_amount, T, inv.total_amount - T, .PAID, inv.due_date⟩ := by
  dsimp only [confirmInvoiceUpdate, Invoice.save]
  rw [if_pos h]
  dsimp only
  rw [if_pos h]

lemma confirmInvoiceUpdate_of_pos (today : Int) (T : ℚ) (inv : Invoice)
    (h1 : ¬ T ≥ inv.total_amount) (h2 : T > 0) :
    confirmInvoiceUpdate today T inv =
      ⟨inv.total_amount, T, inv.total_amount - T, .PART_PAID, inv.due_date⟩ := by
  dsimp only [confirmInvoiceUpdate, Invoice.save]
  rw [if_neg h1, if_pos h2]
  dsimp only
  rw [if_neg h1, if_pos h2]

lemma confirmInvoiceUpdate_of_nonpos (today : Int) (T : ℚ) (inv : Invoice)
    (h1 : ¬ T ≥ inv.total_amount) (h2 : ¬ T > 0) :
    confirmInvoiceUpdate today T inv =
      ⟨inv.total_amount, T, inv.total_amount - T,
       if inv.due_date < today ∧ inv.payment_status = .SENT then .OVERDUE
       else inv.payment_status,
       inv.due_date⟩ := by
  dsimp only [confirmInvoiceUpdate, Invoice.save]
  rw [if_neg h1, if_neg h2]
  dsimp only
  rw [if_neg h1, if_neg h2]
  split_ifs <;> rfl

lemma confirmInvoiceUpdate_idem (today : Int) (T : ℚ) (inv : Invoice) :
    confirmInvoiceUpdate today T (confirmInvoiceUpdate today T inv) =
      confirmInvoiceUpdate today T inv := by
  by_cases h1 : T ≥ inv.total_amount
  · rw [confirmInvoiceUpdate_of_ge today T inv h1,
      confirmInvoiceUpdate_of_ge today T
        ⟨inv.total_amount, T, inv.total_amount - T, .PAID, inv.due_date⟩ h1]
  · by_cases h2 : T > 0
    · rw [confirmInvoiceUpdate_of_pos today T inv h1 h2,
        confirmInvoiceUpdate_of_pos today T
          ⟨inv.total_amount, T, inv.total_amount - T, .PART_PAID,
           inv.due_date⟩ h1 h2]
    · rw [confirmInvoiceUpdate_of_nonpos today T inv h1 h2,
        confirmInvoiceUpdate_of_nonpos today T
          ⟨inv.total_amount, T, inv.total_amount - T,
           if inv.due_date < today ∧ inv.payment_status = .SENT then .OVERDUE
           else inv.payment_status, inv.due_date⟩ h1 h2]
      simp only [Invoice.mk.injEq, true_and, and_true]
      by_cases h3 : inv.due_date < today ∧ inv.payment_status = .SENT
      · simp [h3]
      · simp [h3]

/-- C7: payment confirmation is idempotent on the invoice ledger —
`confirm_payment` recomputes `amount_paid` as the sum of all confirmed
payments, so confirming the same payment twice yields exactly the same
payment list and invoice (`amount_paid`, derived `payment_status` and
`balance_due`) as confirming it once. -/
theorem C7_confirm_payment_idempotent :
    ∀ (today : Int) (ps : List Payment) (i : Nat) (inv : Invoice),
      i < ps.length →
      confirmPayment today (confirmPayment today ps i inv).1 i
          (confirmPayment today ps i inv).2 =
        confirmPayment today ps i inv := by
  intro today ps i inv h
  have e1 : confirmPayment today ps i inv =
      (ps.set i { ps[i] with confirmed := true },
       confirmInvoiceUpdate today
         (((ps.set i { ps[i] with confirmed := true }).filter
             (fun p => p.confirmed)).map (fun p => p.amount)).sum inv) := by
    simp [confirmPayment, List.getElem?_eq_getElem h]
  have hget : (ps.set i { ps[i] with confirmed := true })[i]? =
      some { ps[i] with confirmed := true } := List.getElem?_set_self h
  have e2 : ∀ inv2 : Invoice,
      confirmPayment today (ps.set i { ps[i] with confirmed := true }) i inv2 =
        (ps.set i { ps[i] with confirmed := true },
         confirmInvoiceUpdate today
           (((ps.set i { ps[i] with confirmed := true }).filter
               (fun p => p.confirmed)).map (fun p => p.amount)).sum inv2) := by
    intro inv2
    simp [confirmPayment, hget, List.set_set]
  rw [e1]
  rw [e2]
  rw [confirmInvoiceUpdate_idem]

/-- C7 witness: confirming a concrete payment twice equals confirming
it once. -/
theorem C7_confirm_payment_idempotent_witness :
    confirmPayment 10 (confirmPayment 10 [⟨60, false⟩] 0
        ⟨100, 0, 100, .SENT, 5⟩).1 0
        (confirmPayment 10 [⟨60, false⟩] 0 ⟨100, 0, 100, .SENT, 5⟩).2 =
      confirmPayment 10 [⟨60, false⟩] 0 ⟨100, 0, 100, .SENT, 5⟩ :=
  C7_confirm_payment_idempotent 10 [⟨60, false⟩] 0 ⟨100, 0, 100, .SENT, 5⟩
    (by decide)

lemma available_reserveStep (it : HireOrderItem) (m : Material)
    (h : m.available_quantity - it.quantity_ordered ≤ m.total_quantity) :
    (reserveStep it m).available_quantity =
      m.available_quantity - it.quantity_ordered := by
  simp only [reserveStep, Material.save]
  split <;> simp_all
  omega

lemma applyItems_congr (g1 g2 : HireOrderItem → Material → Material)
    (items : List HireOrderItem)
    (h : ∀ it ∈ items, ∀ m : Material, g1 it m = g2 it m) :
    ∀ ms : List Material, applyItems g1 ms items = applyItems g2 ms items := by
  induction items with
  | nil => intro ms; rfl
  | cons it rest ih =>
    intro ms
    rw [applyItems_cons, applyItems_cons]
    have hstep : modifyMat ms it.matIdx (g1 it) =
        modifyMat ms it.matIdx (g2 it) := by
      unfold modifyMat
      cases hm : ms[it.matIdx]? with
      | none => rfl
      | some m => simp only [h it (List.mem_cons_self it rest) m]
    rw [hstep]
    exact ih (fun x hx m => h x (List.mem_cons_of_mem it hx) m) _

lemma orderItems_matIdx (q : Quotation) :
    (orderItemsOfQuotation q).map (fun it => it.matIdx) =
      q.items.map (fun it => it.matIdx) := by
  simp [orderItemsOfQuotation, List.map_map]

lemma stockSufficient_of_eq (ms : List Material) (q : Quotation)
    (hv : ∀ it ∈ q.items, it.matIdx < ms.length)
    (hex : ∀ it ∈ q.items, ∀ m : Material, ms[it.matIdx]? = some m →
      it.quantity ≤ m.available_quantity) :
    stockSufficient ms q.items = true := by
  unfold stockSufficient
  rw [List.all_eq_true]
  intro it hit
  have hlt := hv it hit
  rw [List.getElem?_eq_getElem hlt]
  exact decide_eq_true (hex it hit _ (List.getElem?_eq_getElem hlt))

/-- C3 counterexample: the direct `order_create` path performs no
availability check — ordering 6 units of a material with only 5
available succeeds (no insufficient-stock error) and drives
`available_quantity` to -1, where the claim says every order-creation
path fails with an insufficient-stock error before any ledger
mutation. -/
theorem C3_counterexample :
    orderCreate [⟨5, 5, 0, 0⟩] [⟨0, 6, 0, 0⟩] =
      (⟨.ORDERED, [⟨0, 6, 0, 0⟩], none⟩, [⟨5, -1, 6, 0⟩]) := by
  rfl

/-- C3 amended: on the quotation-conversion order-creation paths,
reserving a line-item quantity exactly equal to the material's
`available_quantity` succeeds and leaves `available_quantity == 0`,
and a quantity strictly greater than `available_quantity` aborts the
whole creation with an insufficient-stock error before any ledger
mutation; the direct `order_create` path, however, performs no
availability check at all — it always reserves, decrementing
`available_quantity` by the ordered quantity even past zero. -/
theorem C3_reservation_boundary :
    (∀ (q : Quotation) (ms : List Material),
      q.status = .ACCEPTED →
      (q.items.map (fun it => it.matIdx)).Nodup →
      (∀ it ∈ q.items, it.matIdx < ms.length) →
      (∀ it ∈ q.items, ∀ m : Material, ms[it.matIdx]? = some m →
        it.quantity = m.available_quantity ∧ 0 ≤ m.total_quantity) →
      createOrderFromQuotation false q ms =
        .ok (q, ⟨.ORDERED, orderItemsOfQuotation q, none⟩,
             reserveItems ms (orderItemsOfQuotation q)) ∧
      ∀ it ∈ q.items,
        ((reserveItems ms (orderItemsOfQuotation q))[it.matIdx]?).map
          (fun m => m.available_quantity) = some 0) ∧
    (∀ (q : Quotation) (ms : List Material) (it : QuotationItem)
        (m : Material),
      it ∈ q.items → ms[it.matIdx]? = some m →
      m.available_quantity < it.quantity →
      isErr (createOrderFromQuotation false q ms) = true ∧
      isErr (convertToOrder q ms) = true) ∧
    (∀ (ms : List Material) (items : List HireOrderItem),
      (items.map (fun it => it.matIdx)).Nodup →
      ∀ it ∈ items, ∀ m : Material, ms[it.matIdx]? = some m →
        m.available_quantity - it.quantity_ordered ≤ m.total_quantity →
        ((orderCreate ms items).2)[it.matIdx]?.map
            (fun x => x.available_quantity) =
          some (m.available_quantity - it.quantity_ordered)) := by
  refine ⟨?_, ?_, ?_⟩
  · intro q ms hst hnd hv hex
    have hss : stockSufficient ms q.items = true :=
      stockSufficient_of_eq ms q hv
        (fun it hit m hm => le_of_eq (hex it hit m hm).1)
    constructor
    · simp [createOrderFromQuotation, hst, hss]
    · intro it hit
      have hnd2 : ((orderItemsOfQuotation q).map (fun it => it.matIdx)).Nodup := by
        rw [orderItems_matIdx]
        exact hnd
      have hmem : (⟨it.matIdx, it.quantity, 0, 0⟩ : HireOrderItem) ∈
          orderItemsOfQuotation q :=
        List.mem_map_of_mem _ hit
      have hpt := getElem?_applyItems_nodup reserveStep
        (orderItemsOfQuotation q) ms ⟨it.matIdx, it.quantity, 0, 0⟩ hnd2 hmem
      have hex2 := hex it hit _ (List.getElem?_eq_getElem (hv it hit))
      rw [show reserveItems ms (orderItemsOfQuotation q) =
            applyItems reserveStep ms (orderItemsOfQuotation q) from rfl]
      rw [hpt, List.getElem?_eq_getElem (hv it hit)]
      simp only [Option.map_some']
      rw [available_reserveStep _ _ (by dsimp only; omega)]
      simp only [Option.some.injEq]
      omega
  · intro q ms it m hit hm hlt
    have hss : stockSufficient ms q.items = false := by
      cases hall : stockSufficient ms q.items with
      | false => rfl
      | true =>
        exfalso
        have := List.all_eq_true.mp hall it hit
        rw [hm] at this
        simp only [decide_eq_true_eq] at this
        omega
    constructor
    · unfold createOrderFromQuotation
      rw [if_neg (by simp)]
      by_cases hst : q.status ≠ .ACCEPTED
      · rw [if_pos hst]
        rfl
      · rw [if_neg hst, if_pos (by simp [hss])]
        rfl
    · unfold convertToOrder
      by_cases hst : q.status ≠ .ACCEPTED
      · rw [if_pos hst]
        rfl
      · rw [if_neg hst, if_pos (by simp [hss])]
        rfl
  · intro ms items hnd it hit m hm hcl
    have hpt := getElem?_applyItems_nodup reserveStep items ms it hnd hit
    rw [show (orderCreate ms items).2 = applyItems reserveStep ms items
          from rfl]
    rw [hpt, hm]
    simp only [Option.map_some']
    rw [available_reserveStep _ _ hcl]

/-- C3 witness: the amended statement applied to concrete quotations and
materials — an exact-amount reservation leaving zero, an over-request
rejected on both conversion paths, and an unchecked `order_create`
reservation driving availability to -1. -/
theorem C3_reservation_boundary_witness :
    (createOrderFromQuotation false
        ⟨.ACCEPTED, 0, 0, 0, 0, [⟨0, 5, 1, 1, 5⟩]⟩ [⟨7, 5, 2, 0⟩] =
      .ok (⟨.ACCEPTED, 0, 0, 0, 0, [⟨0, 5, 1, 1, 5⟩]⟩,
           ⟨.ORDERED, [⟨0, 5, 0, 0⟩], none⟩,
           reserveItems [⟨7, 5, 2, 0⟩]
             (orderItemsOfQuotation
               ⟨.ACCEPTED, 0, 0, 0, 0, [⟨0, 5, 1, 1, 5⟩]⟩))) ∧
    ((reserveItems [⟨7, 5, 2, 0⟩]
        (orderItemsOfQuotation
          ⟨.ACCEPTED, 0, 0, 0, 0, [⟨0, 5, 1, 1, 5⟩]⟩))[0]?).map
      (fun m => m.available_quantity) = some 0 ∧
    isErr (createOrderFromQuotation false
      ⟨.ACCEPTED, 0, 0, 0, 0, [⟨0, 6, 1, 1, 6⟩]⟩ [⟨7, 5, 2, 0⟩]) = true ∧
    isErr (convertToOrder
      ⟨.ACCEPTED, 0, 0, 0, 0, [⟨0, 6, 1, 1, 6⟩]⟩ [⟨7, 5, 2, 0⟩]) = true ∧
    ((orderCreate [⟨5, 5, 0, 0⟩] [⟨0, 6, 0, 0⟩]).2)[0]?.map
      (fun x => x.available_quantity) = some (-1) := by
  have hexact := C3_reservation_boundary.1
    ⟨.ACCEPTED, 0, 0, 0, 0, [⟨0, 5, 1, 1, 5⟩]⟩ [⟨7, 5, 2, 0⟩] rfl
    (by decide) (by decide)
    (by
      intro it hit m hm
      simp only [List.mem_singleton] at hit
      subst hit
      simp only [List.getElem?_cons_zero, Option.some.injEq] at hm
      subst hm
      exact ⟨rfl, by decide⟩)
  have hover := C3_reservation_boundary.2.1
    ⟨.ACCEPTED, 0, 0, 0, 0, [⟨0, 6, 1, 1, 6⟩]⟩ [⟨7, 5, 2, 0⟩]
    ⟨0, 6, 1, 1, 6⟩ ⟨7, 5, 2, 0⟩ (by decide) rfl (by decide)
  have hunchecked := C3_reservation_boundary.2.2
    [⟨5, 5, 0, 0⟩] [⟨0, 6, 0, 0⟩] (by decide) ⟨0, 6, 0, 0⟩ (by decide)
    ⟨5, 5, 0, 0⟩ rfl (by decide)
  exact ⟨hexact.1, hexact.2 ⟨0, 5, 1, 1, 5⟩ (by decide), hover.1, hover.2,
    hunchecked⟩

lemma completedStep_eq (it : HireOrderItem) (m : Material)
    (hgt : it.quantity_returned < it.quantity_dispatched)
    (hw : m.available_quantity ≤ m.total_quantity) :
    completedStep it m =
      { m with
        hired_quantity :=
          m.hired_quantity -
            (it.quantity_dispatched - it.quantity_returned) } := by
  unfold completedStep Material.save
  rw [if_pos (by omega)]
  rw [if_neg (by dsimp only; omega)]

/-- C1 counterexample: the web `RETURNED` transition releases
`hired_quantity -= quantity_dispatched` but restores only
`available_quantity += quantity_returned`, so with 40 dispatched and 35
returned a material satisfying the invariant (total 100, available 60,
hired 40) ends at available 95, hired 0 — and `95 + 0 ≠ 100`, violating
the claimed invariant right after a core-workflow mutation. -/
theorem C1_counterexample :
    orderUpdateStatus 0 ⟨.ACTIVE, [⟨0, 40, 40, 35⟩], none⟩
        [⟨100, 60, 40, 0⟩] .RETURNED =
      .ok (⟨.RETURNED, [⟨0, 40, 40, 35⟩], some 0⟩, [⟨100, 95, 0, 0⟩]) ∧
    MaterialInv ⟨100, 60, 40, 0⟩ ∧ ¬ MaterialInv ⟨100, 95, 0, 0⟩ := by
  exact ⟨rfl, by decide, by decide⟩

/-- C1 amended: reservation at order creation preserves
`available_quantity + hired_quantity` and `total_quantity` for every
material, and when the availability pre-check passed (the
quotation-conversion paths) it preserves the full invariant
(`available + hired == total`, both non-negative,
`0 <= available <= total`); manual stock adjustment preserves the full
invariant; but the `RETURNED` release changes `available + hired` by
`quantity_returned - quantity_dispatched` per item — restoring the
invariant only when every item was fully returned — and the `COMPLETED`
release decreases the sum again by the unreturned remainder, so the
claimed invariant does not survive the release transitions in
general. -/
theorem C1_ledger_invariant :
    (∀ (ms : List Material) (items : List HireOrderItem),
      (items.map (fun it => it.matIdx)).Nodup →
      (∀ m ∈ ms, m.available_quantity ≤ m.total_quantity) →
      (∀ it ∈ items, 0 ≤ it.quantity_ordered) →
      ∀ j : Nat,
        ((reserveItems ms items)[j]?).map availHired =
          (ms[j]?).map availHired ∧
        ((reserveItems ms items)[j]?).map (fun m => m.total_quantity) =
          (ms[j]?).map (fun m => m.total_quantity)) ∧
    (∀ (q : Quotation) (ms : List Material),
      (q.items.map (fun it => it.matIdx)).Nodup →
      stockSufficient ms q.items = true →
      (∀ m ∈ ms, MaterialInv m) →
      (∀ it ∈ q.items, 0 ≤ it.quantity) →
      ∀ m2 ∈ reserveItems ms (orderItemsOfQuotation q), MaterialInv m2) ∧
    (∀ (m : Material) (ty : AdjustmentType) (q : Int) (m2 : Material),
      0 ≤ q → MaterialInv m → materialAdjustStock m ty q = .ok m2 →
      MaterialInv m2) ∧
    (∀ (today : Int) (o : HireOrder) (ms : List Material),
      o.status = .ACTIVE →
      (o.items.map (fun it => it.matIdx)).Nodup →
      orderUpdateStatus today o ms .RETURNED =
        .ok ({ o with status := .RETURNED, actual_return_date := some today },
             applyItems returnedStep ms o.items) ∧
      ∀ it ∈ o.items, ∀ m : Material, ms[it.matIdx]? = some m →
        m.available_quantity + it.quantity_returned ≤ m.total_quantity →
        ((applyItems returnedStep ms o.items)[it.matIdx]?).map availHired =
          some (availHired m +
            (it.quantity_returned - it.quantity_dispatched)) ∧
        (availHired m = m.total_quantity →
          (((applyItems returnedStep ms o.items)[it.matIdx]?).map availHired =
              some m.total_quantity ↔
            it.quantity_returned = it.quantity_dispatched))) ∧
    (∀ (today : Int) (o : HireOrder) (ms : List Material),
      o.status = .RETURNED →
      (o.items.map (fun it => it.matIdx)).Nodup →
      orderUpdateStatus today o ms .COMPLETED =
        .ok ({ o with status := .COMPLETED },
             applyItems completedStep ms o.items) ∧
      ∀ it ∈ o.items, ∀ m : Material, ms[it.matIdx]? = some m →
        m.available_quantity ≤ m.total_quantity →
        it.quantity_returned < it.quantity_dispatched →
        ((applyItems completedStep ms o.items)[it.matIdx]?).map availHired =
          some (availHired m -
            (it.quantity_dispatched - it.quantity_returned))) := by
  refine ⟨?_, ?_, ?_, ?_, ?_⟩
  · intro ms items hnd hw hq j
    exact ⟨getElem?_applyItems_map reserveStep availHired items ms hnd
        (fun it hit m hm => availHired_reserveStep it m (hq it hit) (hw m hm)) j,
      getElem?_applyItems_map reserveStep (fun m => m.total_quantity) items ms
        hnd (fun it hit m hm => total_reserveStep it m) j⟩
  · intro q ms hnd hs hinv hq m2 hm2
    obtain ⟨j, hj⟩ := List.mem_iff_getElem?.mp hm2
    by_cases hjt : j ∈ (orderItemsOfQuotation q).map (fun it => it.matIdx)
    · obtain ⟨it2, hit2, rfl⟩ := List.mem_map.mp hjt
      have hnd2 : ((orderItemsOfQuotation q).map
          (fun it => it.matIdx)).Nodup := by
        rw [orderItems_matIdx]
        exact hnd
      have hpt := getElem?_applyItems_nodup reserveStep
        (orderItemsOfQuotation q) ms it2 hnd2 hit2
      rw [show reserveItems ms (orderItemsOfQuotation q) =
            applyItems reserveStep ms (orderItemsOfQuotation q) from rfl,
          hpt] at hj
      cases hm : ms[it2.matIdx]? with
      | none => rw [hm] at hj; simp at hj
      | some m =>
        rw [hm] at hj
        simp only [Option.map_some', Option.some.injEq] at hj
        obtain ⟨qi, hqi, rfl⟩ := List.mem_map.mp hit2
        have hinvm := hinv m (List.getElem?_mem hm)
        have hstock := List.all_eq_true.mp hs qi hqi
        rw [hm] at hstock
        simp only [decide_eq_true_eq] at hstock
        obtain ⟨h1, h2, h3, h4⟩ := hinvm
        have hq2 := hq qi hqi
        rw [reserveStep_eq _ _ (by dsimp only; exact hq2) h4] at hj
        subst hj
        exact ⟨by dsimp only; omega, by dsimp only; omega,
          by dsimp only; omega, by dsimp only; omega⟩
    · rw [show reserveItems ms (orderItemsOfQuotation q) =
            applyItems reserveStep ms (orderItemsOfQuotation q) from rfl,
          getElem?_applyItems_not_mem _ _ _ _ hjt] at hj
      exact hinv m2 (List.getElem?_mem hj)
  · intro m ty q m2 hq hinv hok
    obtain ⟨h1, h2, h3, h4⟩ := hinv
    cases ty with
    | ADD =>
      unfold materialAdjustStock at hok
      injection hok with h
      subst h
      unfold Material.save
      rw [if_neg (by dsimp only; omega)]
      exact ⟨by dsimp only; omega, by dsimp only; omega,
        by dsimp only; omega, by dsimp only; omega⟩
    | REMOVE =>
      unfold materialAdjustStock at hok
      by_cases hlt : m.available_quantity < q
      · rw [if_pos hlt] at hok
        exact absurd hok (by simp)
      · rw [if_neg hlt] at hok
        injection hok with h
        subst h
        unfold Material.save
        rw [if_neg (by dsimp only; omega)]
        exact ⟨by dsimp only; omega, by dsimp only; omega,
          by dsimp only; omega, by dsimp only; omega⟩
  · intro today o ms hA hnd
    constructor
    · unfold orderUpdateStatus
      rw [if_pos (by rw [hA]; decide), if_pos rfl]
    · intro it hit m hmm hnc
      have hpt := getElem?_applyItems_nodup returnedStep o.items ms it hnd hit
      rw [hpt, hmm]
      simp only [Option.map_some', Option.some.injEq]
      rw [returnedStep_eq it m hnc]
      constructor
      · simp only [availHired]
        omega
      · intro hsum
        simp only [availHired] at hsum ⊢
        omega
  · intro today o ms hA hnd
    constructor
    · unfold orderUpdateStatus
      rw [if_pos (by rw [hA]; decide), if_neg (by decide), if_pos rfl]
    · intro it hit m hmm hw hgt
      have hpt := getElem?_applyItems_nodup completedStep o.items ms it hnd hit
      rw [hpt, hmm]
      simp only [Option.map_some', Option.some.injEq]
      rw [completedStep_eq it m hgt hw]
      simp only [availHired]
      omega

/-- C1 witness: the amended statement applied to concrete ledgers — a
reservation keeping the sum, a checked conversion keeping the full
invariant, a stock addition keeping the full invariant, and the
`RETURNED`/`COMPLETED` releases shifting the sum by the unreturned
remainder. -/
theorem C1_ledger_invariant_witness :
    (((reserveItems [⟨10, 5, 5, 0⟩] [⟨0, 3, 0, 0⟩])[0]?).map availHired =
        (([⟨10, 5, 5, 0⟩] : List Material)[0]?).map availHired ∧
      ((reserveItems [⟨10, 5, 5, 0⟩] [⟨0, 3, 0, 0⟩])[0]?).map
          (fun m => m.total_quantity) =
        (([⟨10, 5, 5, 0⟩] : List Material)[0]?).map
          (fun m => m.total_quantity)) ∧
    MaterialInv ⟨10, 2, 8, 0⟩ ∧
    MaterialInv ⟨14, 9, 5, 0⟩ ∧
    ((applyItems returnedStep [⟨100, 60, 40, 0⟩] [⟨0, 40, 40, 35⟩])[0]?).map
        availHired = some (100 + (35 - 40)) ∧
    ((applyItems completedStep [⟨100, 95, 0, 0⟩] [⟨0, 40, 40, 35⟩])[0]?).map
        availHired = some (95 - (40 - 35)) := by
  have hB := C1_ledger_invariant.2.1
    ⟨.ACCEPTED, 0, 0, 0, 0, [⟨0, 3, 1, 1, 3⟩]⟩ [⟨10, 5, 5, 0⟩]
    (by decide) (by decide) (by decide) (by decide)
    ⟨10, 2, 8, 0⟩ (by decide)
  have hC := C1_ledger_invariant.2.2.1 ⟨10, 5, 5, 0⟩ .ADD 4 ⟨14, 9, 5, 0⟩
    (by decide) (by decide) rfl
  have hD := (C1_ledger_invariant.2.2.2.1 0
      ⟨.ACTIVE, [⟨0, 40, 40, 35⟩], none⟩ [⟨100, 60, 40, 0⟩] rfl (by decide)).2
    ⟨0, 40, 40, 35⟩ (by decide) ⟨100, 60, 40, 0⟩ rfl (by decide)
  have hE := (C1_ledger_invariant.2.2.2.2 0
      ⟨.RETURNED, [⟨0, 40, 40, 35⟩], some 0⟩ [⟨100, 95, 0, 0⟩] rfl
      (by decide)).2
    ⟨0, 40, 40, 35⟩ (by decide) ⟨100, 95, 0, 0⟩ rfl (by decide) (by decide)
  exact ⟨C1_ledger_invariant.1 [⟨10, 5, 5, 0⟩] [⟨0, 3, 0, 0⟩]
      (by decide) (by decide) (by decide) 0,
    hB, hC, hD.1, hE⟩

/-- C10: for an `ACTIVE` order returned through the API `return_order`
action, each item's material gains `quantity_dispatched` on
`available_quantity` and loses `quantity_dispatched` on
`hired_quantity` (`quantity_returned` plays no role), so
`available_quantity + hired_quantity` is preserved for every material
(touched rows keep their sum, untouched rows are unchanged); and the
resulting material table equals the web `RETURNED` transition's table
exactly when every item has `quantity_returned ==
quantity_dispatched`. -/
theorem C10_api_return_order :
    ∀ (today : Int) (o : HireOrder) (ms : List Material),
      o.status = .ACTIVE →
      (o.items.map (fun it => it.matIdx)).Nodup →
      (∀ it ∈ o.items, it.matIdx < ms.length) →
      (∀ it ∈ o.items, ∀ m : Material, ms[it.matIdx]? = some m →
        m.available_quantity + it.quantity_dispatched ≤ m.total_quantity ∧
        m.available_quantity + it.quantity_returned ≤ m.total_quantity) →
      apiReturnOrder today o ms =
        .ok ({ o with status := .RETURNED, actual_return_date := some today },
             applyItems apiReturnStep ms o.items) ∧
      (∀ it ∈ o.items, ∀ m : Material, ms[it.matIdx]? = some m →
        (applyItems apiReturnStep ms o.items)[it.matIdx]? =
          some { m with
                 available_quantity :=
                   m.available_quantity + it.quantity_dispatched
                 hired_quantity :=
                   m.hired_quantity - it.quantity_dispatched }) ∧
      (∀ it ∈ o.items, ∀ m : Material, ms[it.matIdx]? = some m →
        availHired
          { m with
            available_quantity := m.available_quantity + it.quantity_dispatched
            hired_quantity := m.hired_quantity - it.quantity_dispatched } =
          availHired m) ∧
      (∀ j : Nat, j ∉ o.items.map (fun it => it.matIdx) →
        (applyItems apiReturnStep ms o.items)[j]? = ms[j]?) ∧
      (applyItems apiReturnStep ms o.items =
          applyItems returnedStep ms o.items ↔
        ∀ it ∈ o.items, it.quantity_returned = it.quantity_dispatched) := by
  intro today o ms hA hnd hv hm
  refine ⟨?_, ?_, ?_, ?_, ?_⟩
  · unfold apiReturnOrder
    rw [if_neg (by simp [hA])]
  · intro it hit m hmm
    have hpt := getElem?_applyItems_nodup apiReturnStep o.items ms it hnd hit
    rw [hpt, hmm]
    simp only [Option.map_some', Option.some.injEq]
    exact apiReturnStep_eq it m (hm it hit m hmm).1
  · intro it hit m hmm
    simp only [availHired]
    omega
  · exact fun j hj => getElem?_applyItems_not_mem apiReturnStep o.items ms j hj
  · constructor
    · intro heq it hit
      have h1 := getElem?_applyItems_nodup apiReturnStep o.items ms it hnd hit
      have h2 := getElem?_applyItems_nodup returnedStep o.items ms it hnd hit
      rw [heq] at h1
      have hmm := List.getElem?_eq_getElem (hv it hit)
      have h3 := h1.symm.trans h2
      rw [hmm] at h3
      simp only [Option.map_some', Option.some.injEq] at h3
      have hc := hm it hit _ hmm
      rw [apiReturnStep_eq it _ hc.1, returnedStep_eq it _ hc.2] at h3
      have h4 := congrArg Material.available_quantity h3
      dsimp only at h4
      omega
    · intro hr
      apply applyItems_congr
      intro it hit m
      simp only [apiReturnStep, returnedStep, hr it hit]

/-- C10 witness: the statement applied to a concrete active order whose
single item was fully dispatched and fully returned. -/
theorem C10_api_return_order_witness :
    apiReturnOrder 7 ⟨.ACTIVE, [⟨0, 5, 5, 5⟩], none⟩ [⟨10, 5, 5, 0⟩] =
      .ok (⟨.RETURNED, [⟨0, 5, 5, 5⟩], some 7⟩,
           applyItems apiReturnStep [⟨10, 5, 5, 0⟩] [⟨0, 5, 5, 5⟩]) ∧
    (applyItems apiReturnStep [⟨10, 5, 5, 0⟩] [⟨0, 5, 5, 5⟩] =
        applyItems returnedStep [⟨10, 5, 5, 0⟩] [⟨0, 5, 5, 5⟩] ↔
      ∀ it ∈ ([⟨0, 5, 5, 5⟩] : List HireOrderItem),
        it.quantity_returned = it.quantity_dispatched) := by
  have H := C10_api_return_order 7 ⟨.ACTIVE, [⟨0, 5, 5, 5⟩], none⟩
    [⟨10, 5, 5, 0⟩] rfl (by decide) (by decide)
    (by
      intro it hit m hmm
      simp only [List.mem_singleton] at hit
      subst hit
      simp only [List.getElem?_cons_zero, Option.some.injEq] at hmm
      subst hmm
      exact ⟨by decide, by decide⟩)
  exact ⟨H.1, H.2.2.2.2⟩

/-- C2 counterexample: the API `dispatch` action accepts an `ORDERED`
order and moves it directly to `DISPATCHED` without passing through
`APPROVED` — the claim says no code path that updates order status
permits this transition. -/
theorem C2_counterexample :
    apiDispatch ⟨.ORDERED, [⟨0, 5, 0, 0⟩], none⟩ =
      .ok ⟨.DISPATCHED, [⟨0, 5, 5, 0⟩], none⟩ := by
  rfl

/-- C2 amended: the web `order_update_status` path enforces the
transition table — any requested status outside
`valid_transitions[current]` is rejected with an error (the view
redirects without saving, leaving the stored status unchanged), and in
particular `ORDERED -> DISPATCHED` is rejected there; but the API
`dispatch` action checks only that the status is `ORDERED` or
`APPROVED` and then sets `DISPATCHED` directly, so an order can move
`ORDERED -> DISPATCHED` without passing through `APPROVED` on that
path. -/
theorem C2_transition_enforcement :
    (∀ (today : Int) (o : HireOrder) (ms : List Material) (s : OrderStatus),
      s ∉ validTransitions o.status →
      isErr (orderUpdateStatus today o ms s) = true) ∧
    (∀ (today : Int) (o : HireOrder) (ms : List Material),
      o.status = .ORDERED →
      isErr (orderUpdateStatus today o ms .DISPATCHED) = true) ∧
    (∀ o : HireOrder, o.status = .ORDERED ∨ o.status = .APPROVED →
      apiDispatch o =
        .ok { o with
              status := .DISPATCHED
              items := o.items.map
                (fun it =>
                  { it with quantity_dispatched := it.quantity_ordered }) }) := by
  refine ⟨?_, ?_, ?_⟩
  · intro today o ms s h
    unfold orderUpdateStatus
    rw [if_neg h]
    rfl
  · intro today o ms h
    unfold orderUpdateStatus
    rw [h, if_neg (by decide)]
    rfl
  · intro o h
    unfold apiDispatch
    rcases h with h | h <;> rw [h] <;> rfl

/-- C2 witness: the amended statement applied to concrete orders. -/
theorem C2_transition_enforcement_witness :
    isErr (orderUpdateStatus 0 ⟨.ORDERED, [], none⟩ [] .DISPATCHED) = true ∧
    isErr (orderUpdateStatus 0 ⟨.ACTIVE, [], none⟩ [] .COMPLETED) = true ∧
    apiDispatch ⟨.ORDERED, [⟨1, 7, 0, 0⟩], none⟩ =
      .ok ⟨.DISPATCHED, [⟨1, 7, 7, 0⟩], none⟩ :=
  ⟨C2_transition_enforcement.2.1 0 ⟨.ORDERED, [], none⟩ [] rfl,
   C2_transition_enforcement.1 0 ⟨.ACTIVE, [], none⟩ [] .COMPLETED (by decide),
   C2_transition_enforcement.2.2 ⟨.ORDERED, [⟨1, 7, 0, 0⟩], none⟩ (Or.inl rfl)⟩

/-- C6 counterexample: creating an order from an `ACCEPTED` quotation
through the web `create_order_from_quotation` path succeeds but leaves
the quotation's status at `ACCEPTED` — it never transitions to
`CONVERTED` (which is not even among `Quotation.STATUS_CHOICES`),
contradicting the claim that the quotation moves `ACCEPTED ->
CONVERTED` at the moment the order is created. -/
theorem C6_counterexample :
    createOrderFromQuotation false
        ⟨.ACCEPTED, 0, 0, 0, 0, [⟨0, 1, 5, 2, 10⟩]⟩ [⟨10, 5, 5, 0⟩] =
      .ok (⟨.ACCEPTED, 0, 0, 0, 0, [⟨0, 1, 5, 2, 10⟩]⟩,
           ⟨.ORDERED, [⟨0, 1, 0, 0⟩], none⟩, [⟨10, 4, 6, 0⟩]) ∧
    QuotationStatus.CONVERTED ∉ quotationStatusChoices := by
  exact ⟨rfl, by decide⟩

/-- C6 amended: only the API `convert_to_order` path sets the quotation
to `CONVERTED` (a value outside the declared `STATUS_CHOICES`);
converting the resulting quotation again fails (with the generic
only-accepted-quotations error — no `AlreadyConvertedError` exists) and
performs no mutation.  The web path leaves the quotation's status
untouched (it stays `ACCEPTED`), and a second web conversion is blocked
by the existing-order check; on both paths the second attempt creates
no order. -/
theorem C6_convert_once :
    (∀ (q : Quotation) (ms : List Material),
      q.status = .ACCEPTED → stockSufficient ms q.items = true →
      convertToOrder q ms =
        .ok ({ q with status := .CONVERTED },
             ⟨.ORDERED, orderItemsOfQuotation q, none⟩,
             reserveItems ms (orderItemsOfQuotation q))) ∧
    (∀ (q : Quotation) (ms : List Material)
        (r : Quotation × HireOrder × List Material),
      convertToOrder q ms = .ok r →
      r.1.status = .CONVERTED ∧
      ∀ ms2 : List Material, isErr (convertToOrder r.1 ms2) = true) ∧
    (∀ (q : Quotation) (ms : List Material)
        (r : Quotation × HireOrder × List Material),
      createOrderFromQuotation false q ms = .ok r → r.1 = q) ∧
    (∀ (q : Quotation) (ms : List Material),
      isErr (createOrderFromQuotation true q ms) = true) ∧
    QuotationStatus.CONVERTED ∉ quotationStatusChoices := by
  refine ⟨?_, ?_, ?_, ?_, by decide⟩
  · intro q ms h hs
    simp [convertToOrder, h, hs]
  · intro q ms r hok
    unfold convertToOrder at hok
    by_cases h1 : q.status ≠ .ACCEPTED
    · rw [if_pos h1] at hok
      exact absurd hok (by simp)
    · rw [if_neg h1] at hok
      by_cases h2 : ¬ stockSufficient ms q.items
      · rw [if_pos h2] at hok
        exact absurd hok (by simp)
      · rw [if_neg h2] at hok
        injection hok with h
        subst h
        refine ⟨rfl, fun ms2 => ?_⟩
        unfold convertToOrder
        rw [if_pos (by simp)]
        rfl
  · intro q ms r hok
    unfold createOrderFromQuotation at hok
    rw [if_neg (by simp)] at hok
    by_cases h1 : q.status ≠ .ACCEPTED
    · rw [if_pos h1] at hok
      exact absurd hok (by simp)
    · rw [if_neg h1] at hok
      by_cases h2 : ¬ stockSufficient ms q.items
      · rw [if_pos h2] at hok
        exact absurd hok (by simp)
      · rw [if_neg h2] at hok
        injection hok with h
        subst h
        rfl
  · intro q ms
    rfl

/-- C6 witness: the amended statement applied to a concrete accepted
quotation and one-row material table. -/
theorem C6_convert_once_witness :
    convertToOrder ⟨.ACCEPTED, 0, 0, 0, 0, [⟨0, 1, 5, 2, 10⟩]⟩ [⟨10, 5, 5, 0⟩] =
      .ok (⟨.CONVERTED, 0, 0, 0, 0, [⟨0, 1, 5, 2, 10⟩]⟩,
           ⟨.ORDERED, [⟨0, 1, 0, 0⟩], none⟩, [⟨10, 4, 6, 0⟩]) ∧
    isErr (convertToOrder ⟨.CONVERTED, 0, 0, 0, 0, [⟨0, 1, 5, 2, 10⟩]⟩
        [⟨10, 4, 6, 0⟩]) = true ∧
    (⟨.ACCEPTED, 0, 0, 0, 0, [⟨0, 1, 5, 2, 10⟩]⟩ : Quotation) =
      ⟨.ACCEPTED, 0, 0, 0, 0, [⟨0, 1, 5, 2, 10⟩]⟩ ∧
    isErr (createOrderFromQuotation true
        ⟨.ACCEPTED, 0, 0, 0, 0, [⟨0, 1, 5, 2, 10⟩]⟩ [⟨10, 5, 5, 0⟩]) = true :=
  ⟨C6_convert_once.1 ⟨.ACCEPTED, 0, 0, 0, 0, [⟨0, 1, 5, 2, 10⟩]⟩
      [⟨10, 5, 5, 0⟩] rfl rfl,
   (C6_convert_once.2.1 ⟨.ACCEPTED, 0, 0, 0, 0, [⟨0, 1, 5, 2, 10⟩]⟩
      [⟨10, 5, 5, 0⟩] _ rfl).2 [⟨10, 4, 6, 0⟩],
   C6_convert_once.2.2.1 ⟨.ACCEPTED, 0, 0, 0, 0, [⟨0, 1, 5, 2, 10⟩]⟩
      [⟨10, 5, 5, 0⟩] _ rfl,
   C6_convert_once.2.2.2.1 ⟨.ACCEPTED, 0, 0, 0, 0, [⟨0, 1, 5, 2, 10⟩]⟩
      [⟨10, 5, 5, 0⟩]⟩

/-! Lemmas for the document-numbering scheme. -/

lemma ofDigits_append (ds : List Nat) (d : Nat) :
    ofDigits (ds ++ [d]) = ofDigits ds * 10 + d := by
  unfold ofDigits
  rw [List.foldl_append]
  rfl

lemma ofDigits_reverse (l : List Nat) :
    ofDigits l.reverse = Nat.ofDigits 10 l := by
  induction l with
  | nil => rfl
  | cons d l ih =>
    rw [List.reverse_cons, ofDigits_append, ih, Nat.ofDigits_cons]
    ring

lemma ofDigits_decDigits (n : Nat) : ofDigits (decDigits n) = n := by
  unfold decDigits
  rw [ofDigits_reverse, Nat.ofDigits_digits]

lemma decDigits_lt_ten (n : Nat) : ∀ d ∈ decDigits n, d < 10 := by
  intro d hd
  unfold decDigits at hd
  rw [List.mem_reverse] at hd
  exact Nat.digits_lt_base (by norm_num) hd

lemma decDigits_len_le (n : Nat) (h : n ≤ 9999) : (decDigits n).length ≤ 4 := by
  unfold decDigits
  rw [List.length_reverse]
  by_cases hn : n = 0
  · subst hn
    simp
  · by_contra h5
    have h5a : 5 ≤ (Nat.digits 10 n).length := by omega
    have hp : (10 : ℕ) ^ 5 ≤ 10 ^ (Nat.digits 10 n).length :=
      Nat.pow_le_pow_right (by norm_num) h5a
    have hb := Nat.base_pow_length_digits_le 10 n (by norm_num) hn
    have hchain : (10 : ℕ) ^ 5 ≤ 10 * n := le_trans hp hb
    norm_num at hchain
    omega

lemma pad4_length (n : Nat) (h : n ≤ 9999) : (pad4 n).length = 4 := by
  unfold pad4
  rw [List.length_append, List.length_replicate]
  have := decDigits_len_le n h
  omega

lemma pad4_lt_ten (n : Nat) : ∀ d ∈ pad4 n, d < 10 := by
  intro d hd
  unfold pad4 at hd
  rw [List.mem_append] at hd
  rcases hd with hd | hd
  · have := List.eq_of_mem_replicate hd
    omega
  · exact decDigits_lt_ten n d hd

lemma foldl_ofDigits_from (ds : List Nat) :
    ∀ a : Nat, List.foldl (fun x y => x * 10 + y) a ds =
      a * 10 ^ ds.length + ofDigits ds := by
  induction ds with
  | nil => intro a; simp [ofDigits]
  | cons d ds ih =>
    intro a
    have hcons : ofDigits (d :: ds) = d * 10 ^ ds.length + ofDigits ds := by
      show List.foldl (fun x y => x * 10 + y) 0 (d :: ds) = _
      simp only [List.foldl_cons, Nat.zero_mul, Nat.zero_add]
      exact ih d
    simp only [List.foldl_cons]
    rw [ih, hcons, List.length_cons]
    ring

lemma ofDigits_cons (d : Nat) (ds : List Nat) :
    ofDigits (d :: ds) = d * 10 ^ ds.length + ofDigits ds := by
  show List.foldl (fun x y => x * 10 + y) 0 (d :: ds) = _
  simp only [List.foldl_cons, Nat.zero_mul, Nat.zero_add]
  exact foldl_ofDigits_from ds d

lemma ofDigits_lt (ds : List Nat) (h : ∀ d ∈ ds, d < 10) :
    ofDigits ds < 10 ^ ds.length := by
  induction ds with
  | nil => simp [ofDigits]
  | cons d ds ih =>
    rw [ofDigits_cons, List.length_cons]
    have hd : d < 10 := h d (List.mem_cons_self d ds)
    have hv : ofDigits ds < 10 ^ ds.length :=
      ih (fun x hx => h x (List.mem_cons_of_mem d hx))
    calc d * 10 ^ ds.length + ofDigits ds
        < d * 10 ^ ds.length + 10 ^ ds.length := by omega
      _ = (d + 1) * 10 ^ ds.length := by ring
      _ ≤ 10 * 10 ^ ds.length := Nat.mul_le_mul_right _ (by omega)
      _ = 10 ^ (ds.length + 1) := by ring

lemma digit_block_lt (d e x y X : Nat) (hx : x < X) (hde : d < e) :
    d * X + x < e * X + y := by
  calc d * X + x < d * X + X := by omega
    _ = (d + 1) * X := by ring
    _ ≤ e * X := Nat.mul_le_mul_right _ (by omega)
    _ ≤ e * X + y := Nat.le_add_right _ _

lemma ofDigits_replicate_zero_append (k : Nat) (ds : List Nat) :
    ofDigits (List.replicate k 0 ++ ds) = ofDigits ds := by
  induction k with
  | zero => simp
  | succ k ih =>
    rw [List.replicate_succ, List.cons_append]
    show List.foldl (fun x y => x * 10 + y) (0 * 10 + 0)
      (List.replicate k 0 ++ ds) = _
    simp only [Nat.zero_mul, Nat.zero_add]
    exact ih

lemma ofDigits_pad4 (n : Nat) : ofDigits (pad4 n) = n := by
  unfold pad4
  rw [ofDigits_replicate_zero_append, ofDigits_decDigits]

lemma lexLtB_iff : ∀ ds es : List Nat, ds.length = es.length →
    (∀ d ∈ ds, d < 10) → (∀ d ∈ es, d < 10) →
    (lexLtB ds es = true ↔ ofDigits ds < ofDigits es) := by
  intro ds
  induction ds with
  | nil =>
    intro es hlen _ _
    cases es with
    | nil => simp [lexLtB, ofDigits]
    | cons e es => simp at hlen
  | cons d ds ih =>
    intro es hlen hd he
    cases es with
    | nil => simp at hlen
    | cons e es =>
      simp only [List.length_cons] at hlen
      have hlen2 : ds.length = es.length := by omega
      have hdt : ∀ x ∈ ds, x < 10 := fun x hx => hd x (List.mem_cons_of_mem _ hx)
      have het : ∀ x ∈ es, x < 10 := fun x hx => he x (List.mem_cons_of_mem _ hx)
      have hds : ofDigits ds < 10 ^ ds.length := ofDigits_lt ds hdt
      have hes : ofDigits es < 10 ^ ds.length := by
        rw [hlen2]
        exact ofDigits_lt es het
      rw [ofDigits_cons, ofDigits_cons, ← hlen2]
      show (if d < e then true else if e < d then false else lexLtB ds es)
          = true ↔ _
      rcases Nat.lt_trichotomy d e with hlt | heq | hgt
      · rw [if_pos hlt]
        exact iff_of_true rfl
          (digit_block_lt d e (ofDigits ds) (ofDigits es) _ hds hlt)
      · subst heq
        rw [if_neg (lt_irrefl d), if_neg (lt_irrefl d),
          ih es hlen2 hdt het]
        omega
      · rw [if_neg (by omega), if_pos hgt]
        refine iff_of_false (by simp) ?_
        have := digit_block_lt e d (ofDigits es) (ofDigits ds) _ hes hgt
        omega

lemma lexLast_fold :
    ∀ (l : List Nat) (a : Nat),
      (∀ x ∈ l, x ≤ 9999) → a ≤ 9999 →
      ∃ m, (m = a ∨ m ∈ l) ∧ a ≤ m ∧ (∀ x ∈ l, x ≤ m) ∧
        List.foldl
          (fun acc s =>
            match acc with
            | none => some s
            | some t => if lexLtB t s then some s else some t)
          (some (pad4 a)) (l.map pad4) = some (pad4 m) := by
  intro l
  induction l with
  | nil =>
    intro a _ _
    exact ⟨a, Or.inl rfl, le_refl a, by simp, rfl⟩
  | cons x rest ih =>
    intro a hb ha
    have hx : x ≤ 9999 := hb x (List.mem_cons_self _ _)
    have hbrest : ∀ y ∈ rest, y ≤ 9999 :=
      fun y hy => hb y (List.mem_cons_of_mem _ hy)
    have hiff : lexLtB (pad4 a) (pad4 x) = true ↔ a < x := by
      rw [lexLtB_iff (pad4 a) (pad4 x)
          (by rw [pad4_length a ha, pad4_length x hx])
          (pad4_lt_ten a) (pad4_lt_ten x),
        ofDigits_pad4, ofDigits_pad4]
    simp only [List.map_cons, List.foldl_cons]
    by_cases hax : lexLtB (pad4 a) (pad4 x) = true
    · rw [if_pos hax]
      obtain ⟨m, hm, hxm, hbound, hfold⟩ := ih x hbrest hx
      refine ⟨m, ?_, ?_, ?_, hfold⟩
      · rcases hm with rfl | hm
        · exact Or.inr (List.mem_cons_self _ _)
        · exact Or.inr (List.mem_cons_of_mem _ hm)
      · have : a < x := hiff.mp hax
        omega
      · intro y hy
        rcases List.mem_cons.mp hy with rfl | hy
        · exact hxm
        · exact hbound y hy
    · rw [if_neg hax]
      obtain ⟨m, hm, ham, hbound, hfold⟩ := ih a hbrest ha
      refine ⟨m, ?_, ham, ?_, hfold⟩
      · rcases hm with rfl | hm
        · exact Or.inl rfl
        · exact Or.inr (List.mem_cons_of_mem _ hm)
      · intro y hy
        rcases List.mem_cons.mp hy with rfl | hy
        · have : ¬ a < y := fun hc => hax (hiff.mpr hc)
          omega
        · exact hbound y hy

lemma nextSeq_spec (existing : List Nat) (hne : existing ≠ [])
    (hb : ∀ x ∈ existing, x ≤ 9999) :
    ∃ m ∈ existing, (∀ x ∈ existing, x ≤ m) ∧ nextSeq existing = m + 1 := by
  cases existing with
  | nil => exact absurd rfl hne
  | cons e rest =>
    have he : e ≤ 9999 := hb e (List.mem_cons_self _ _)
    obtain ⟨m, hm, hem, hbound, hfold⟩ :=
      lexLast_fold rest e (fun y hy => hb y (List.mem_cons_of_mem _ hy)) he
    refine ⟨m, ?_, ?_, ?_⟩
    · rcases hm with rfl | hm
      · exact List.mem_cons_self _ _
      · exact List.mem_cons_of_mem _ hm
    · intro y hy
      rcases List.mem_cons.mp hy with rfl | hy
      · exact hem
      · exact hbound y hy
    · unfold nextSeq lexLast
      simp only [List.map_cons, List.foldl_cons]
      rw [hfold]
      show ofDigits (pad4 m) + 1 = m + 1
      rw [ofDigits_pad4]

lemma pad4_one : pad4 1 = [0, 0, 0, 1] := by
  unfold pad4 decDigits
  norm_num [Nat.digits_def', List.replicate]

lemma pad4_9999 : pad4 9999 = [9, 9, 9, 9] := by
  unfold pad4 decDigits
  norm_num [Nat.digits_def', List.replicate]

lemma pad4_10000 : pad4 10000 = [1, 0, 0, 0, 0] := by
  unfold pad4 decDigits
  norm_num [Nat.digits_def', List.replicate]

lemma nextSeq_eq (existing : List Nat) :
    nextSeq existing =
      match lexLast (existing.map pad4) with
      | none => 1
      | some s => ofDigits s + 1 := rfl

lemma newSeqDigits_eq (existing : List Nat) :
    newSeqDigits existing = pad4 (nextSeq existing) := rfl

lemma lexLast_9999 : lexLast [[9, 9, 9, 9]] = some [9, 9, 9, 9] := rfl

lemma lexLast_9999_10000 :
    lexLast [[9, 9, 9, 9], [1, 0, 0, 0, 0]] = some [9, 9, 9, 9] := rfl

/-- C8 counterexample: once a year's sequence reaches 9999, the next
generated number has a five-digit suffix (`QT-YYYY-10000`), no longer
the claimed zero-padded four-digit `NNNN` form; and once such a number
exists, the lexicographic `order_by(...).last()` picks `...-9999` over
`...-10000`, so the next document gets sequence `9999 + 1 = 10000` —
not the maximum existing sequence (10000) plus one — duplicating an
existing number. -/
theorem C8_counterexample :
    nextSeq [9999] = 10000 ∧
    (pad4 10000).length = 5 ∧
    newSeqDigits [9999] = [1, 0, 0, 0, 0] ∧
    nextSeq [9999, 10000] = 10000 := by
  have h1 : nextSeq [9999] = 10000 := by
    rw [nextSeq_eq,
      show ([9999].map pad4) = [[9, 9, 9, 9]] from by
        rw [List.map_cons, List.map_nil, pad4_9999],
      lexLast_9999]
    rfl
  refine ⟨h1, by rw [pad4_10000]; rfl, ?_, ?_⟩
  · rw [newSeqDigits_eq, h1, pad4_10000]
  · rw [nextSeq_eq,
      show ([9999, 10000].map pad4) = [[9, 9, 9, 9], [1, 0, 0, 0, 0]] from by
        rw [List.map_cons, List.map_cons, List.map_nil, pad4_9999,
          pad4_10000],
      lexLast_9999_10000]
    rfl

/-- C8 amended: the first document of a year receives sequence 0001,
and — provided every existing sequence for that year's prefix lies
between 1 and 9999 — each subsequent document receives the maximum
existing sequence plus one (deleted numbers are never reused, so gaps
persist), zero-padded to the four-digit `PREFIX-YYYY-NNNN` form as long
as that maximum is at most 9998; past 9999 the scheme leaves the
four-digit form and the lexicographic max-selection no longer finds the
numeric maximum. -/
theorem C8_numbering_bounded :
    (nextSeq [] = 1 ∧ newSeqDigits [] = [0, 0, 0, 1]) ∧
    (∀ existing : List Nat, existing ≠ [] →
      (∀ x ∈ existing, 1 ≤ x ∧ x ≤ 9999) →
      ∃ m ∈ existing, (∀ x ∈ existing, x ≤ m) ∧ nextSeq existing = m + 1 ∧
        (m ≤ 9998 → (newSeqDigits existing).length = 4)) := by
  constructor
  · refine ⟨rfl, ?_⟩
    rw [newSeqDigits_eq, show nextSeq [] = 1 from rfl, pad4_one]
  · intro existing hne hb
    obtain ⟨m, hm, hbound, heq⟩ := nextSeq_spec existing hne
      (fun x hx => (hb x hx).2)
    refine ⟨m, hm, hbound, heq, fun hm9 => ?_⟩
    rw [newSeqDigits_eq, heq]
    exact pad4_length (m + 1) (by omega)

/-- C8 witness: with existing sequences 2 and 1, the next document gets
sequence 3 with a four-digit suffix. -/
theorem C8_numbering_bounded_witness :
    nextSeq [2, 1] = 3 ∧ (newSeqDigits [2, 1]).length = 4 := by
  obtain ⟨m, hm, hbound, heq, hlen⟩ :=
    C8_numbering_bounded.2 [2, 1] (by simp) (by decide)
  have hm2 : m = 2 := by
    have h2 := hbound 2 (by simp)
    simp only [List.mem_cons, List.mem_singleton] at hm
    rcases hm with rfl | hm
    · rfl
    · simp at hm
      omega
  subst hm2
  exact ⟨heq, hlen (by omega)⟩
